import Mathlib

/-
Verification of the Mesi dimensional-analysis header (mesitype.h).

The embedding models:
  - std::ratio normalization (sign into the numerator, divide by gcd),
    which the header relies on through RationalType and ratio_add or
    ratio_subtract;
  - the seven-component dimension vector carried as template arguments;
  - RationalTypeReduced, the quantity type: a raw value of a storage type
    tagged with a dimension vector and a power-of-ten scale exponent;
  - the operator algebra (add, sub, mul, div, scalar overloads,
    comparisons, compound assignment) and the scale-conversion operator.

Dimension vectors and scale exponents are template parameters in C++;
here they are type indices of the quantity type, so an operation that in
C++ only compiles for identical tags is here typed at identical indices.
-/

namespace Mesi

/-- A fraction as a pair of intmax_t template arguments (t_x_n, t_x_d). -/
@[ext]
structure Frac where
  n : Int
  d : Int
deriving DecidableEq, Repr

/-- The gcd of numerator and denominator, as std::ratio computes it. -/
def Frac.g (f : Frac) : Nat := Int.gcd f.n f.d

/-- Normalization performed by std::ratio<N, D>: the member num is
sign(N) * sign(D) * abs(N) / gcd(N, D) and the member den is
abs(D) / gcd(N, D). Instantiating std::ratio also requires D to be
nonzero; that requirement is carried as a hypothesis in the lemmas. -/
def ratioReduce (f : Frac) : Frac :=
  ⟨f.n.sign * f.d.sign * ((f.n.natAbs / f.g : Nat) : Int),
   ((f.d.natAbs / f.g : Nat) : Int)⟩

/-- A fraction in lowest terms in the sense of the glossary of the spec:
positive denominator and coprime numerator and denominator. -/
def Frac.Canon (f : Frac) : Prop := 0 < f.d ∧ Int.gcd f.n f.d = 1

instance (f : Frac) : Decidable f.Canon :=
  decidable_of_iff (0 < f.d ∧ Int.gcd f.n f.d = 1) Iff.rfl

/-- The rational number a fraction denotes. -/
def fracVal (f : Frac) : ℚ := (f.n : ℚ) / (f.d : ℚ)

/-- std::ratio_add on two fractions: both operands are normalized by
instantiating std::ratio, then the sum (n1 d2 + n2 d1) / (d1 d2) is
normalized again by the resulting std::ratio. -/
def ratioAdd (a b : Frac) : Frac :=
  let a1 := ratioReduce a
  let b1 := ratioReduce b
  ratioReduce ⟨a1.n * b1.d + b1.n * a1.d, a1.d * b1.d⟩

/-- std::ratio_subtract on two fractions, analogously. -/
def ratioSub (a b : Frac) : Frac :=
  let a1 := ratioReduce a
  let b1 := ratioReduce b
  ratioReduce ⟨a1.n * b1.d - b1.n * a1.d, a1.d * b1.d⟩

theorem gcd_ne_zero_of_d (f : Frac) (hd : f.d ≠ 0) : f.g ≠ 0 := by
  intro h
  exact hd (Int.natAbs_eq_zero.mp (Nat.eq_zero_of_gcd_eq_zero_right h))

theorem ratioReduce_n_def (f : Frac) :
    (ratioReduce f).n = f.n.sign * f.d.sign * ((f.n.natAbs / f.g : Nat) : Int) :=
  rfl

theorem ratioReduce_d_def (f : Frac) :
    (ratioReduce f).d = ((f.d.natAbs / f.g : Nat) : Int) :=
  rfl

theorem ratioReduce_d_pos (f : Frac) (hd : f.d ≠ 0) :
    0 < (ratioReduce f).d := by
  have hg : 0 < f.g := Nat.pos_of_ne_zero (gcd_ne_zero_of_d f hd)
  have hdvd : f.g ∣ f.d.natAbs := Nat.gcd_dvd_right _ _
  have hpos : 0 < f.d.natAbs / f.g :=
    Nat.div_pos (Nat.le_of_dvd (Int.natAbs_pos.mpr hd) hdvd) hg
  rw [ratioReduce_d_def]
  exact_mod_cast hpos

theorem ratioReduce_canon (f : Frac) (hd : f.d ≠ 0) :
    (ratioReduce f).Canon := by
  refine ⟨ratioReduce_d_pos f hd, ?_⟩
  have hg : 0 < f.g := Nat.pos_of_ne_zero (gcd_ne_zero_of_d f hd)
  by_cases hn : f.n = 0
  · have hn0 : (ratioReduce f).n = 0 := by
      rw [ratioReduce_n_def, hn, Int.sign_zero, Int.zero_mul, Int.zero_mul]
    have hgd : f.g = f.d.natAbs := by
      rw [Frac.g, hn]; exact Int.gcd_zero_left f.d
    have hd1 : (ratioReduce f).d = 1 := by
      rw [ratioReduce_d_def, hgd, Nat.div_self (Int.natAbs_pos.mpr hd)]
      rfl
    rw [hn0, hd1]
    rfl
  · have hnabs : (ratioReduce f).n.natAbs = f.n.natAbs / f.g := by
      rw [ratioReduce_n_def, Int.natAbs_mul, Int.natAbs_mul,
        Int.natAbs_sign_of_nonzero hn, Int.natAbs_sign_of_nonzero hd,
        Int.natAbs_ofNat, Nat.one_mul]
    have hdabs : (ratioReduce f).d.natAbs = f.d.natAbs / f.g := by
      rw [ratioReduce_d_def, Int.natAbs_ofNat]
    show ((ratioReduce f).n.natAbs).gcd ((ratioReduce f).d.natAbs) = 1
    rw [hnabs, hdabs]
    exact Nat.coprime_div_gcd_div_gcd hg

theorem ratioReduce_canon_id (f : Frac) (hf : f.Canon) :
    ratioReduce f = f := by
  obtain ⟨hd, hg⟩ := hf
  have hg1 : f.g = 1 := hg
  have hs : f.d.sign = 1 := Int.sign_eq_one_of_pos hd
  have hnum : (ratioReduce f).n = f.n := by
    rw [ratioReduce_n_def, hg1, Nat.div_one, hs, Int.mul_one,
      Int.sign_mul_natAbs]
  have hden : (ratioReduce f).d = f.d := by
    rw [ratioReduce_d_def, hg1, Nat.div_one]
    exact Int.natAbs_of_nonneg (le_of_lt hd)
  ext
  · exact hnum
  · exact hden

theorem ratioReduce_cross (f : Frac) (hd : f.d ≠ 0) :
    (ratioReduce f).n * f.d = f.n * (ratioReduce f).d := by
  have hg : 0 < f.g := Nat.pos_of_ne_zero (gcd_ne_zero_of_d f hd)
  have hdvdn : f.g ∣ f.n.natAbs := Nat.gcd_dvd_left _ _
  have hdvdd : f.g ∣ f.d.natAbs := Nat.gcd_dvd_right _ _
  have hs2 : f.d.sign * f.d.sign = 1 := by
    rcases Int.lt_or_lt_of_ne hd with h | h
    · simp [Int.sign_eq_neg_one_of_neg h]
    · simp [Int.sign_eq_one_of_pos h]
  have hnat : (f.n.natAbs / f.g) * f.d.natAbs
      = f.n.natAbs * (f.d.natAbs / f.g) := by
    calc (f.n.natAbs / f.g) * f.d.natAbs
        = f.d.natAbs * (f.n.natAbs / f.g) := Nat.mul_comm _ _
      _ = f.d.natAbs * f.n.natAbs / f.g := (Nat.mul_div_assoc _ hdvdn).symm
      _ = f.n.natAbs * f.d.natAbs / f.g := by rw [Nat.mul_comm f.d.natAbs]
      _ = f.n.natAbs * (f.d.natAbs / f.g) := Nat.mul_div_assoc _ hdvdd
  calc (ratioReduce f).n * f.d
      = f.n.sign * f.d.sign * ((f.n.natAbs / f.g : Nat) : Int)
        * (f.d.sign * (f.d.natAbs : Int)) := by
        rw [ratioReduce, Int.sign_mul_natAbs]
    _ = f.n.sign * (f.d.sign * f.d.sign)
        * (((f.n.natAbs / f.g : Nat) : Int) * (f.d.natAbs : Int)) := by
        ring
    _ = f.n.sign * (((f.n.natAbs / f.g) * f.d.natAbs : Nat) : Int) := by
        rw [hs2]; push_cast; ring
    _ = f.n.sign * ((f.n.natAbs * (f.d.natAbs / f.g) : Nat) : Int) := by
        rw [hnat]
    _ = f.n.sign * (f.n.natAbs : Int) * ((f.d.natAbs / f.g : Nat) : Int) := by
        push_cast; ring
    _ = f.n * (ratioReduce f).d := by
        rw [Int.sign_mul_natAbs, ratioReduce]

theorem ratioReduce_val (f : Frac) (hd : f.d ≠ 0) :
    fracVal (ratioReduce f) = fracVal f := by
  have hd2 : (ratioReduce f).d ≠ 0 := ne_of_gt (ratioReduce_d_pos f hd)
  have hq2 : ((ratioReduce f).d : ℚ) ≠ 0 := by exact_mod_cast hd2
  have hq : (f.d : ℚ) ≠ 0 := by exact_mod_cast hd
  rw [fracVal, fracVal, div_eq_div_iff hq2 hq]
  exact_mod_cast ratioReduce_cross f hd

theorem canon_inj (a b : Frac) (ha : a.Canon) (hb : b.Canon)
    (hv : fracVal a = fracVal b) : a = b := by
  obtain ⟨had, hag⟩ := ha
  obtain ⟨hbd, hbg⟩ := hb
  have haq : (a.d : ℚ) ≠ 0 := by exact_mod_cast ne_of_gt had
  have hbq : (b.d : ℚ) ≠ 0 := by exact_mod_cast ne_of_gt hbd
  rw [fracVal, fracVal, div_eq_div_iff haq hbq] at hv
  have hcross : a.n * b.d = b.n * a.d := by exact_mod_cast hv
  have hco : IsCoprime a.d a.n :=
    (Int.isCoprime_iff_gcd_eq_one.mpr hag).symm
  have hdvd1 : a.d ∣ b.d * a.n := by
    refine ⟨b.n, ?_⟩
    rw [Int.mul_comm b.d a.n, hcross, Int.mul_comm]
  have hdd1 : a.d ∣ b.d := hco.dvd_of_dvd_mul_right hdvd1
  have hco2 : IsCoprime b.d b.n :=
    (Int.isCoprime_iff_gcd_eq_one.mpr hbg).symm
  have hdvd2 : b.d ∣ a.d * b.n := by
    refine ⟨a.n, ?_⟩
    rw [Int.mul_comm a.d b.n, ← hcross, Int.mul_comm]
  have hdd2 : b.d ∣ a.d := hco2.dvd_of_dvd_mul_right hdvd2
  have hdeq : a.d = b.d :=
    Int.dvd_antisymm (le_of_lt had) (le_of_lt hbd) hdd1 hdd2
  have hneq : a.n = b.n := by
    rw [hdeq] at hcross
    exact mul_right_cancel₀ (ne_of_gt hbd) hcross
  cases a; cases b
  simp_all

theorem ratioAdd_canon (a b : Frac) (ha : a.d ≠ 0) (hb : b.d ≠ 0) :
    (ratioAdd a b).Canon := by
  have h1 : (ratioReduce a).d ≠ 0 := ne_of_gt (ratioReduce_d_pos a ha)
  have h2 : (ratioReduce b).d ≠ 0 := ne_of_gt (ratioReduce_d_pos b hb)
  exact ratioReduce_canon _ (mul_ne_zero h1 h2)

theorem ratioSub_canon (a b : Frac) (ha : a.d ≠ 0) (hb : b.d ≠ 0) :
    (ratioSub a b).Canon := by
  have h1 : (ratioReduce a).d ≠ 0 := ne_of_gt (ratioReduce_d_pos a ha)
  have h2 : (ratioReduce b).d ≠ 0 := ne_of_gt (ratioReduce_d_pos b hb)
  exact ratioReduce_canon _ (mul_ne_zero h1 h2)

theorem ratioAdd_val (a b : Frac) (ha : a.d ≠ 0) (hb : b.d ≠ 0) :
    fracVal (ratioAdd a b) = fracVal a + fracVal b := by
  have h1 : (ratioReduce a).d ≠ 0 := ne_of_gt (ratioReduce_d_pos a ha)
  have h2 : (ratioReduce b).d ≠ 0 := ne_of_gt (ratioReduce_d_pos b hb)
  have h1q : ((ratioReduce a).d : ℚ) ≠ 0 := by exact_mod_cast h1
  have h2q : ((ratioReduce b).d : ℚ) ≠ 0 := by exact_mod_cast h2
  rw [ratioAdd, ratioReduce_val _ (mul_ne_zero h1 h2)]
  rw [← ratioReduce_val a ha, ← ratioReduce_val b hb]
  rw [fracVal, fracVal, fracVal]
  push_cast
  rw [div_add_div _ _ h1q h2q]
  ring_nf

theorem ratioSub_val (a b : Frac) (ha : a.d ≠ 0) (hb : b.d ≠ 0) :
    fracVal (ratioSub a b) = fracVal a - fracVal b := by
  have h1 : (ratioReduce a).d ≠ 0 := ne_of_gt (ratioReduce_d_pos a ha)
  have h2 : (ratioReduce b).d ≠ 0 := ne_of_gt (ratioReduce_d_pos b hb)
  have h1q : ((ratioReduce a).d : ℚ) ≠ 0 := by exact_mod_cast h1
  have h2q : ((ratioReduce b).d : ℚ) ≠ 0 := by exact_mod_cast h2
  rw [ratioSub, ratioReduce_val _ (mul_ne_zero h1 h2)]
  rw [← ratioReduce_val a ha, ← ratioReduce_val b hb]
  rw [fracVal, fracVal, fracVal]
  rw [div_sub_div _ _ h1q h2q]
  push_cast
  ring_nf

theorem ratioAdd_comm (a b : Frac) : ratioAdd a b = ratioAdd b a := by
  rw [ratioAdd, ratioAdd]
  rw [Int.add_comm, Int.mul_comm (ratioReduce a).d (ratioReduce b).d]

theorem ratioAdd_assoc (a b c : Frac)
    (ha : a.d ≠ 0) (hb : b.d ≠ 0) (hc : c.d ≠ 0) :
    ratioAdd (ratioAdd a b) c = ratioAdd a (ratioAdd b c) := by
  have hab : (ratioAdd a b).d ≠ 0 := ne_of_gt (ratioAdd_canon a b ha hb).1
  have hbc : (ratioAdd b c).d ≠ 0 := ne_of_gt (ratioAdd_canon b c hb hc).1
  refine canon_inj _ _ (ratioAdd_canon _ c hab hc)
    (ratioAdd_canon a _ ha hbc) ?_
  rw [ratioAdd_val _ c hab hc, ratioAdd_val a b ha hb,
    ratioAdd_val a _ ha hbc, ratioAdd_val b c hb hc]
  ring

/-- The zero fraction 0/1, the exponent a dimensionless quantity carries
in each of its seven slots. -/
def fracZero : Frac := ⟨0, 1⟩

theorem ratioReduce_zero : ratioReduce fracZero = fracZero := by decide

theorem ratioAdd_zero (f : Frac) (hf : f.Canon) : ratioAdd f fracZero = f := by
  have h1 : ratioReduce f = f := ratioReduce_canon_id f hf
  rw [ratioAdd]
  show ratioReduce
    ⟨(ratioReduce f).n * (ratioReduce fracZero).d
       + (ratioReduce fracZero).n * (ratioReduce f).d,
     (ratioReduce f).d * (ratioReduce fracZero).d⟩ = f
  rw [h1, ratioReduce_zero]
  show ratioReduce ⟨f.n * 1 + 0 * f.d, f.d * 1⟩ = f
  rw [Int.mul_one, Int.zero_mul, Int.add_zero, Int.mul_one]
  exact ratioReduce_canon_id f hf

theorem ratioSub_zero (f : Frac) (hf : f.Canon) : ratioSub f fracZero = f := by
  have h1 : ratioReduce f = f := ratioReduce_canon_id f hf
  rw [ratioSub]
  show ratioReduce
    ⟨(ratioReduce f).n * (ratioReduce fracZero).d
       - (ratioReduce fracZero).n * (ratioReduce f).d,
     (ratioReduce f).d * (ratioReduce fracZero).d⟩ = f
  rw [h1, ratioReduce_zero]
  show ratioReduce ⟨f.n * 1 - 0 * f.d, f.d * 1⟩ = f
  rw [Int.mul_one, Int.zero_mul, Int.sub_zero, Int.mul_one]
  exact ratioReduce_canon_id f hf

theorem ratioSub_zero_left (f : Frac) (hf : f.Canon) :
    ratioSub fracZero f = ⟨-f.n, f.d⟩ := by
  have h1 : ratioReduce f = f := ratioReduce_canon_id f hf
  rw [ratioSub]
  show ratioReduce
    ⟨(ratioReduce fracZero).n * (ratioReduce f).d
       - (ratioReduce f).n * (ratioReduce fracZero).d,
     (ratioReduce fracZero).d * (ratioReduce f).d⟩ = ⟨-f.n, f.d⟩
  rw [h1, ratioReduce_zero]
  show ratioReduce ⟨0 * f.d - f.n * 1, 1 * f.d⟩ = ⟨-f.n, f.d⟩
  rw [Int.zero_mul, Int.mul_one, Int.one_mul, Int.zero_sub]
  refine ratioReduce_canon_id _ ⟨hf.1, ?_⟩
  show Int.gcd (-f.n) f.d = 1
  rw [Int.neg_gcd]
  exact hf.2

/-- The seven-component dimension vector: the fourteen t_x_n, t_x_d
template arguments of RationalTypeReduced, one fraction per base
dimension (meter, second, kilogram, ampere, Kelvin, mole, candela). -/
@[ext]
structure Dims where
  m : Frac
  s : Frac
  kg : Frac
  A : Frac
  K : Frac
  mol : Frac
  cd : Frac
deriving DecidableEq, Repr

/-- A predicate holding at each of the seven components. -/
def Dims.Forall (P : Frac → Prop) (D : Dims) : Prop :=
  P D.m ∧ P D.s ∧ P D.kg ∧ P D.A ∧ P D.K ∧ P D.mol ∧ P D.cd

instance (P : Frac → Prop) [DecidablePred P] (D : Dims) :
    Decidable (D.Forall P) :=
  decidable_of_iff
    (P D.m ∧ P D.s ∧ P D.kg ∧ P D.A ∧ P D.K ∧ P D.mol ∧ P D.cd) Iff.rfl

/-- A binary pointwise combination of two dimension vectors, as the
ALL_UNITS macro produces one fraction per base dimension. -/
def Dims.map2 (φ : Frac → Frac → Frac) (D1 D2 : Dims) : Dims :=
  ⟨φ D1.m D2.m, φ D1.s D2.s, φ D1.kg D2.kg, φ D1.A D2.A,
   φ D1.K D2.K, φ D1.mol D2.mol, φ D1.cd D2.cd⟩

/-- The dimension vector built by the ADD_FRAC macro of operator*. -/
def dimsMul (D1 D2 : Dims) : Dims := Dims.map2 ratioAdd D1 D2

/-- The dimension vector built by the SUB_FRAC macro of operator/. -/
def dimsDiv (D1 D2 : Dims) : Dims := Dims.map2 ratioSub D1 D2

/-- The all-zero dimension vector of a dimensionless quantity, as in
the ScalarType member type (all fourteen exponent arguments 0, 1). -/
def dimsZero : Dims :=
  ⟨fracZero, fracZero, fracZero, fracZero, fracZero, fracZero, fracZero⟩

/-- The componentwise negation of a dimension vector (the inverse
dimension). -/
def dimsNeg (D : Dims) : Dims :=
  ⟨⟨-D.m.n, D.m.d⟩, ⟨-D.s.n, D.s.d⟩, ⟨-D.kg.n, D.kg.d⟩, ⟨-D.A.n, D.A.d⟩,
   ⟨-D.K.n, D.K.d⟩, ⟨-D.mol.n, D.mol.d⟩, ⟨-D.cd.n, D.cd.d⟩⟩

/-- The static_assert condition of RationalTypeReduced on one exponent
fraction: instantiating std::ratio requires a nonzero denominator, and
the assert then demands that the num member equal the raw numerator. -/
def fracAssertOK (f : Frac) : Prop := f.d ≠ 0 ∧ (ratioReduce f).n = f.n

instance (f : Frac) : Decidable (fracAssertOK f) :=
  decidable_of_iff (f.d ≠ 0 ∧ (ratioReduce f).n = f.n) Iff.rfl

/-- All seven static_asserts of RationalTypeReduced pass. -/
def dimsAssertOK (D : Dims) : Prop := D.Forall fracAssertOK

instance (D : Dims) : Decidable (dimsAssertOK D) :=
  decidable_of_iff (D.Forall fracAssertOK) Iff.rfl

/-- Every component is a fraction in lowest terms. -/
def dimsAllReduced (D : Dims) : Prop := D.Forall Frac.Canon

instance (D : Dims) : Decidable (dimsAllReduced D) :=
  decidable_of_iff (D.Forall Frac.Canon) Iff.rfl

theorem fracAssertOK_d_ne_zero (f : Frac) (h : fracAssertOK f) : f.d ≠ 0 :=
  h.1

theorem dimsAssertOK_forall_d (D : Dims) (h : dimsAssertOK D) :
    D.Forall (fun f => f.d ≠ 0) :=
  ⟨h.1.1, h.2.1.1, h.2.2.1.1, h.2.2.2.1.1, h.2.2.2.2.1.1,
   h.2.2.2.2.2.1.1, h.2.2.2.2.2.2.1⟩

/-- The quantity type of the header: a raw value of the storage type T,
tagged with a dimension vector and a power-of-ten scale exponent t_pref.
In C++ the tag is a pack of template arguments; here it is a pair of
type indices, so two quantities are of the same type exactly when both
tags agree, as in the source. -/
structure RationalTypeReduced (T : Type) (D : Dims) (pref : Int) where
  val : T

/-- The dimension-vector tag of a quantity (a type index in C++). -/
def qdims {T : Type} {D : Dims} {pref : Int}
    (_ : RationalTypeReduced T D pref) : Dims := D

/-- The scale-exponent tag of a quantity (the t_pref template argument). -/
def qpref {T : Type} {D : Dims} {pref : Int}
    (_ : RationalTypeReduced T D pref) : Int := pref

/-- The member type ScalarType: the dimensionless quantity type carrying
the same storage type and the same t_pref as the enclosing type. -/
def ScalarType (T : Type) (pref : Int) := RationalTypeReduced T dimsZero pref

/-- operator+ on two quantities of one type: same tag, sum of values. -/
def add {T : Type} [Add T] {D : Dims} {p : Int}
    (left right : RationalTypeReduced T D p) : RationalTypeReduced T D p :=
  ⟨left.val + right.val⟩

/-- Binary operator- on two quantities of one type. -/
def sub {T : Type} [Sub T] {D : Dims} {p : Int}
    (left right : RationalTypeReduced T D p) : RationalTypeReduced T D p :=
  ⟨left.val - right.val⟩

/-- operator* on two quantities: dimension vectors combined by
ratio_add componentwise, scale exponents added, values multiplied. -/
def mul {T : Type} [Mul T] {D1 : Dims} {p1 : Int} {D2 : Dims} {p2 : Int}
    (left : RationalTypeReduced T D1 p1) (right : RationalTypeReduced T D2 p2) :
    RationalTypeReduced T (dimsMul D1 D2) (p1 + p2) :=
  ⟨left.val * right.val⟩

/-- operator/ on two quantities: dimension vectors combined by
ratio_subtract componentwise, scale exponents subtracted, values divided
with the division of the storage type, with no zero test. -/
def div {T : Type} [Div T] {D1 : Dims} {p1 : Int} {D2 : Dims} {p2 : Int}
    (left : RationalTypeReduced T D1 p1) (right : RationalTypeReduced T D2 p2) :
    RationalTypeReduced T (dimsDiv D1 D2) (p1 - p2) :=
  ⟨left.val / right.val⟩

/-- Unary operator-: same tag, negated value. -/
def neg {T : Type} [Neg T] {D : Dims} {p : Int}
    (op : RationalTypeReduced T D p) : RationalTypeReduced T D p :=
  ⟨-op.val⟩

/-- Unary operator+: a copy of the operand. -/
def pos {T : Type} {D : Dims} {p : Int}
    (op : RationalTypeReduced T D p) : RationalTypeReduced T D p :=
  ⟨op.val⟩

/-- operator*(quantity, S): the value is multiplied by the bare number
directly and the tag is kept unchanged. -/
def mulScalarR {T : Type} [Mul T] {D : Dims} {p : Int}
    (left : RationalTypeReduced T D p) (right : T) :
    RationalTypeReduced T D p :=
  ⟨left.val * right⟩

/-- operator*(S, quantity): defined in the source as right * left. -/
def mulScalarL {T : Type} [Mul T] {D : Dims} {p : Int}
    (left : T) (right : RationalTypeReduced T D p) :
    RationalTypeReduced T D p :=
  mulScalarR right left

/-- operator/(quantity, S): the bare number is wrapped in ScalarType,
which carries the t_pref of the left operand, and operator/ on two
quantities is applied. -/
def divScalarR {T : Type} [Div T] {D : Dims} {p : Int}
    (left : RationalTypeReduced T D p) (right : T) :
    RationalTypeReduced T (dimsDiv D dimsZero) (p - p) :=
  div left (⟨right⟩ : RationalTypeReduced T dimsZero p)

/-- operator/(S, quantity): the bare number is wrapped in ScalarType,
which carries the t_pref of the right operand, and operator/ on two
quantities is applied. -/
def divScalarL {T : Type} [Div T] {D : Dims} {p : Int}
    (left : T) (right : RationalTypeReduced T D p) :
    RationalTypeReduced T (dimsDiv dimsZero D) (p - p) :=
  div (⟨left⟩ : RationalTypeReduced T dimsZero p) right

/-- The body of the first loop of the scale-conversion operator: while
the remaining difference is positive the value is multiplied by ten. -/
def mulTenIter {T : Type} [Mul T] [OfNat T 10] : T → Nat → T
  | x, 0 => x
  | x, Nat.succ k => mulTenIter (x * 10) k

/-- The body of the second loop of the scale-conversion operator: while
the remaining difference is negative the value is divided by ten. -/
def divTenIter {T : Type} [Div T] [OfNat T 10] : T → Nat → T
  | x, 0 => x
  | x, Nat.succ k => divTenIter (x / 10) k

/-- The explicit conversion operator to the same dimension vector at
another scale exponent pref2: pref_diff is t_pref - pref2; while it is
positive the value is multiplied by ten, while it is negative the value
is divided by ten. -/
def convertPref {T : Type} [Mul T] [Div T] [OfNat T 10] {D : Dims} {p : Int}
    (q : RationalTypeReduced T D p) (p2 : Int) : RationalTypeReduced T D p2 :=
  ⟨if 0 ≤ p - p2 then mulTenIter q.val (p - p2).toNat
   else divTenIter q.val (p2 - p).toNat⟩

/-- operator==: a direct comparison of the raw values; only defined for
two quantities of one type. -/
def eqQ {T : Type} [DecidableEq T] {D : Dims} {p : Int}
    (left right : RationalTypeReduced T D p) : Bool :=
  decide (left.val = right.val)

/-- operator<: a direct comparison of the raw values. -/
def ltQ {T : Type} [LT T] [DecidableRel ((· < ·) : T → T → Prop)] {D : Dims} {p : Int}
    (left right : RationalTypeReduced T D p) : Bool :=
  decide (left.val < right.val)

/-- operator!=: the negation of right == left. -/
def neQ {T : Type} [DecidableEq T] {D : Dims} {p : Int}
    (left right : RationalTypeReduced T D p) : Bool :=
  !(eqQ right left)

/-- operator<=: left < right or left == right. -/
def leQ {T : Type} [DecidableEq T] [LT T] [DecidableRel ((· < ·) : T → T → Prop)] {D : Dims} {p : Int}
    (left right : RationalTypeReduced T D p) : Bool :=
  ltQ left right || eqQ left right

/-- operator>: right < left. -/
def gtQ {T : Type} [LT T] [DecidableRel ((· < ·) : T → T → Prop)] {D : Dims} {p : Int}
    (left right : RationalTypeReduced T D p) : Bool :=
  ltQ right left

/-- operator>=: left > right or left == right. -/
def geQ {T : Type} [DecidableEq T] [LT T] [DecidableRel ((· < ·) : T → T → Prop)] {D : Dims} {p : Int}
    (left right : RationalTypeReduced T D p) : Bool :=
  gtQ left right || eqQ left right

/-- Re-wraps a raw value under an equal tag. The implicitly declared
copy assignment of RationalTypeReduced accepts only an operand of the
very same type, so a compound assignment whose binary operation lands
in another tag only compiles when both tags are proved equal; the two
equalities record that requirement. -/
def retag {T : Type} {D1 : Dims} {p1 : Int} {D2 : Dims} {p2 : Int}
    (_ : D1 = D2) (_ : p1 = p2) (q : RationalTypeReduced T D1 p1) :
    RationalTypeReduced T D2 p2 :=
  ⟨q.val⟩

/-- operator+=: assigns left + right back to the left operand. -/
def addAssign {T : Type} [Add T] {D : Dims} {p : Int}
    (a rhs : RationalTypeReduced T D p) : RationalTypeReduced T D p :=
  add a rhs

/-- operator-=: assigns left - right back to the left operand. -/
def subAssign {T : Type} [Sub T] {D : Dims} {p : Int}
    (a rhs : RationalTypeReduced T D p) : RationalTypeReduced T D p :=
  sub a rhs

/-- operator*=(T): assigns the scalar product back; the scalar overload
of operator* keeps the tag, so this compiles at every tag. -/
def mulAssignS {T : Type} [Mul T] {D : Dims} {p : Int}
    (a : RationalTypeReduced T D p) (rhs : T) : RationalTypeReduced T D p :=
  mulScalarR a rhs

/-- operator/=(T): the scalar overload of operator/ produces the tag
(dimsDiv D dimsZero, p - p), and the assignment back into the receiver
requires that tag to equal (D, p). -/
def divAssignS {T : Type} [Div T] {D : Dims} {p : Int}
    (hD : dimsDiv D dimsZero = D) (hp : p - p = p)
    (a : RationalTypeReduced T D p) (rhs : T) : RationalTypeReduced T D p :=
  retag hD hp (divScalarR a rhs)

/-- operator*=(ScalarType): operator* on two quantities produces the tag
(dimsMul D dimsZero, p + p), and the assignment back into the receiver
requires that tag to equal (D, p). -/
def mulAssignQ {T : Type} [Mul T] {D : Dims} {p : Int}
    (hD : dimsMul D dimsZero = D) (hp : p + p = p)
    (a : RationalTypeReduced T D p) (rhs : RationalTypeReduced T dimsZero p) :
    RationalTypeReduced T D p :=
  retag hD hp (mul a rhs)

/-- operator/=(ScalarType): operator/ on two quantities produces the tag
(dimsDiv D dimsZero, p - p), and the assignment back into the receiver
requires that tag to equal (D, p). -/
def divAssignQ {T : Type} [Div T] {D : Dims} {p : Int}
    (hD : dimsDiv D dimsZero = D) (hp : p - p = p)
    (a : RationalTypeReduced T D p) (rhs : RationalTypeReduced T dimsZero p) :
    RationalTypeReduced T D p :=
  retag hD hp (div a rhs)

/-- The dimension vector of the Meters alias (length exponent one). -/
def dimsLength : Dims :=
  ⟨⟨1, 1⟩, fracZero, fracZero, fracZero, fracZero, fracZero, fracZero⟩

/-- The dimension vector of the Seconds alias (time exponent one). -/
def dimsTime : Dims :=
  ⟨fracZero, ⟨1, 1⟩, fracZero, fracZero, fracZero, fracZero, fracZero⟩

/-- The dimension vector of the MetersSq alias, written Meters times
Meters in the source. -/
def dimsArea : Dims := dimsMul dimsLength dimsLength

theorem dimsMul_zero (D : Dims) (hD : dimsAllReduced D) :
    dimsMul D dimsZero = D := by
  obtain ⟨h1, h2, h3, h4, h5, h6, h7⟩ := hD
  ext <;>
    simp [dimsMul, Dims.map2, dimsZero, ratioAdd_zero _ h1, ratioAdd_zero _ h2,
      ratioAdd_zero _ h3, ratioAdd_zero _ h4, ratioAdd_zero _ h5,
      ratioAdd_zero _ h6, ratioAdd_zero _ h7]

theorem dimsDiv_zero (D : Dims) (hD : dimsAllReduced D) :
    dimsDiv D dimsZero = D := by
  obtain ⟨h1, h2, h3, h4, h5, h6, h7⟩ := hD
  ext <;>
    simp [dimsDiv, Dims.map2, dimsZero, ratioSub_zero _ h1, ratioSub_zero _ h2,
      ratioSub_zero _ h3, ratioSub_zero _ h4, ratioSub_zero _ h5,
      ratioSub_zero _ h6, ratioSub_zero _ h7]

theorem dimsDiv_zero_left (D : Dims) (hD : dimsAllReduced D) :
    dimsDiv dimsZero D = dimsNeg D := by
  obtain ⟨h1, h2, h3, h4, h5, h6, h7⟩ := hD
  ext <;>
    simp [dimsDiv, Dims.map2, dimsZero, dimsNeg, ratioSub_zero_left _ h1,
      ratioSub_zero_left _ h2, ratioSub_zero_left _ h3, ratioSub_zero_left _ h4,
      ratioSub_zero_left _ h5, ratioSub_zero_left _ h6, ratioSub_zero_left _ h7]

theorem dimsMul_comm (D1 D2 : Dims) : dimsMul D1 D2 = dimsMul D2 D1 := by
  ext <;> simp [dimsMul, Dims.map2, ratioAdd_comm]

theorem dimsMul_assoc (D1 D2 D3 : Dims)
    (h1 : D1.Forall (fun f => f.d ≠ 0)) (h2 : D2.Forall (fun f => f.d ≠ 0))
    (h3 : D3.Forall (fun f => f.d ≠ 0)) :
    dimsMul (dimsMul D1 D2) D3 = dimsMul D1 (dimsMul D2 D3) := by
  obtain ⟨a1, a2, a3, a4, a5, a6, a7⟩ := h1
  obtain ⟨b1, b2, b3, b4, b5, b6, b7⟩ := h2
  obtain ⟨c1, c2, c3, c4, c5, c6, c7⟩ := h3
  ext <;>
    simp [dimsMul, Dims.map2, ratioAdd_assoc _ _ _ a1 b1 c1,
      ratioAdd_assoc _ _ _ a2 b2 c2, ratioAdd_assoc _ _ _ a3 b3 c3,
      ratioAdd_assoc _ _ _ a4 b4 c4, ratioAdd_assoc _ _ _ a5 b5 c5,
      ratioAdd_assoc _ _ _ a6 b6 c6, ratioAdd_assoc _ _ _ a7 b7 c7]

theorem mulTenIter_rat (x : ℚ) (k : Nat) :
    mulTenIter x k = x * (10 : ℚ) ^ k := by
  induction k generalizing x with
  | zero => rw [mulTenIter, pow_zero, mul_one]
  | succ k ih =>
    rw [mulTenIter, ih, pow_succ]
    ring

theorem divTenIter_rat (x : ℚ) (k : Nat) :
    divTenIter x k = x / (10 : ℚ) ^ k := by
  induction k generalizing x with
  | zero => rw [divTenIter, pow_zero, div_one]
  | succ k ih =>
    rw [divTenIter, ih, pow_succ, div_div]
    ring_nf

theorem convertPref_val_rat {D : Dims} {p : Int}
    (q : RationalTypeReduced ℚ D p) (p2 : Int) :
    (convertPref q p2).val = q.val * (10 : ℚ) ^ (p - p2) := by
  rw [convertPref]
  by_cases h : 0 ≤ p - p2
  · rw [if_pos h, mulTenIter_rat, ← zpow_natCast, Int.toNat_of_nonneg h]
  · rw [if_neg h, divTenIter_rat]
    have hneg : p - p2 = -((p2 - p).toNat : Int) := by omega
    rw [hneg, zpow_neg, zpow_natCast, div_eq_mul_inv]

theorem convertPref_self {T : Type} [Mul T] [Div T] [OfNat T 10]
    {D : Dims} {p : Int} (q : RationalTypeReduced T D p) :
    (convertPref q p).val = q.val := by
  rw [convertPref, Int.sub_self]
  rfl

theorem Dims.Forall_congr {P Q : Frac → Prop} (h : ∀ f, P f ↔ Q f)
    (D : Dims) : D.Forall P ↔ D.Forall Q := by
  unfold Dims.Forall
  exact and_congr (h _) (and_congr (h _) (and_congr (h _) (and_congr (h _)
    (and_congr (h _) (and_congr (h _) (h _))))))

theorem fracAssertOK_iff (f : Frac) :
    fracAssertOK f ↔ (f.n = 0 ∧ f.d ≠ 0) ∨ f.Canon := by
  constructor
  · rintro ⟨hd, hn⟩
    by_cases h0 : f.n = 0
    · exact Or.inl ⟨h0, hd⟩
    · right
      have hcanon := ratioReduce_canon f hd
      have hcross := ratioReduce_cross f hd
      rw [hn] at hcross
      have hdeq : f.d = (ratioReduce f).d := mul_left_cancel₀ h0 hcross
      refine ⟨?_, ?_⟩
      · rw [hdeq]
        exact hcanon.1
      · have hgc := hcanon.2
        rw [hn] at hgc
        rw [← hdeq] at hgc
        exact hgc
  · rintro (⟨hn, hd⟩ | hc)
    · refine ⟨hd, ?_⟩
      rw [ratioReduce_n_def, hn, Int.sign_zero, Int.zero_mul, Int.zero_mul]
    · exact ⟨ne_of_gt hc.1, by rw [ratioReduce_canon_id f hc]⟩

/-- C1: the claim states that q * s, s * q, q / s and s / q behave as if
the bare number s were wrapped as a dimensionless quantity with scale
exponent zero, with q / s keeping the scale exponent of q and s / q
getting minus the scale exponent of q. Counterexample: the source wraps
the divisor in ScalarType, which carries the scale exponent of q itself,
so at scale exponent 3 the quotient q / s carries scale exponent
3 - 3 = 0, not 3. -/
theorem C1_counterexample :
    qpref (divScalarR (⟨10⟩ : RationalTypeReduced Int dimsLength 3) 2)
      ≠ qpref (⟨10⟩ : RationalTypeReduced Int dimsLength 3) := by
  decide

/-- C1 (amended): for a quantity whose exponent fractions are in lowest
terms, q * s and s * q keep exactly the dimension vector and scale
exponent of q with value q.val * s (and agree with wrapping s as a
dimensionless zero-scale quantity and multiplying), while q / s and
s / q wrap s as a dimensionless quantity carrying the scale exponent of
q, so q / s has the dimension vector of q and scale exponent 0 with
value q.val / s, and s / q has the componentwise negated dimension
vector and scale exponent 0 with value s / q.val. -/
theorem C1_scalar_ops (T : Type) [Mul T] [Div T] (D : Dims) (p : Int)
    (hD : dimsAllReduced D) (a : RationalTypeReduced T D p) (s : T) :
    (mulScalarR a s).val = a.val * s ∧
    qdims (mulScalarR a s) = D ∧
    qpref (mulScalarR a s) = p ∧
    mulScalarL s a = mulScalarR a s ∧
    (mul a (⟨s⟩ : RationalTypeReduced T dimsZero 0)).val = (mulScalarR a s).val ∧
    qdims (mul a (⟨s⟩ : RationalTypeReduced T dimsZero 0)) = D ∧
    qpref (mul a (⟨s⟩ : RationalTypeReduced T dimsZero 0)) = p ∧
    qdims (divScalarR a s) = D ∧
    qpref (divScalarR a s) = 0 ∧
    (divScalarR a s).val = a.val / s ∧
    qdims (divScalarL s a) = dimsNeg D ∧
    qpref (divScalarL s a) = 0 ∧
    (divScalarL s a).val = s / a.val :=
  ⟨rfl, rfl, rfl, rfl, rfl, dimsMul_zero D hD, Int.add_zero p,
   dimsDiv_zero D hD, Int.sub_self p, rfl,
   dimsDiv_zero_left D hD, Int.sub_self p, rfl⟩

/-- C1 witness: the amended statement applied at a concrete length
quantity of value 10 at scale exponent 3 divided by the bare number 2. -/
theorem C1_scalar_ops_witness :
    dimsAllReduced dimsLength ∧
    qpref (divScalarR (⟨10⟩ : RationalTypeReduced Int dimsLength 3) (2 : Int)) = 0 :=
  ⟨by decide,
   (C1_scalar_ops Int dimsLength 3 (by decide) ⟨10⟩ 2).2.2.2.2.2.2.2.2.1⟩

/-- C2: the claim states that with integer storage, value 5 at scale 0
converted to scale 3 and back returns 5, and converted to scale -3 and
back returns 0. Counterexample: the conversion to scale 3 divides first
(pref_diff = 0 - 3 is negative), so 5 / 1000 truncates to 0 and the trip
through scale 3 returns 0, not 5. -/
theorem C2_counterexample :
    (convertPref (convertPref
      (⟨5⟩ : RationalTypeReduced Int dimsLength 0) 3) 0).val ≠ 5 := by
  decide

/-- C2 (amended): with integer storage, value 5 at scale 0 converted to
scale 3 and back to scale 0 yields 0 (5 / 1000 truncates to 0, then
0 * 1000 = 0), and converted to scale -3 and back yields 5
(5 * 1000 / 1000). -/
theorem C2_roundtrip :
    (convertPref (convertPref
      (⟨5⟩ : RationalTypeReduced Int dimsLength 0) 3) 0).val = 0 ∧
    (convertPref (convertPref
      (⟨5⟩ : RationalTypeReduced Int dimsLength 0) (-3)) 0).val = 5 := by
  decide

/-- C3: the claim states that the static_asserts pass if and only if
every one of the seven exponent fractions is in lowest terms.
Counterexample: a meter exponent of 0/5 passes the assert (std::ratio
normalizes 0/5 to num 0, equal to the raw numerator 0) although 0/5 is
not in lowest terms (gcd(0, 5) = 5, not 1). -/
theorem C3_counterexample :
    dimsAssertOK ⟨⟨0, 5⟩, fracZero, fracZero, fracZero, fracZero,
      fracZero, fracZero⟩ ∧
    ¬ dimsAllReduced ⟨⟨0, 5⟩, fracZero, fracZero, fracZero, fracZero,
      fracZero, fracZero⟩ := by
  decide

/-- C3 (amended): instantiating the raw dimension-tag constructor
succeeds if and only if each of the seven exponent fractions either has
numerator 0 with any nonzero denominator, or is in lowest terms
(denominator positive and coprime to the numerator); fractions with a
nonzero numerator that are not in lowest terms are rejected at build
time by the static_assert naming the offending base dimension. -/
theorem C3_assert_iff (D : Dims) :
    dimsAssertOK D ↔ D.Forall (fun f => (f.n = 0 ∧ f.d ≠ 0) ∨ f.Canon) :=
  Dims.Forall_congr (fun f => fracAssertOK_iff f) D

/-- C4: a scale conversion keeps the dimension vector, sets the scale
exponent to the target, rescales the value by ten to the power
(source - target) through the repeated multiply or divide loops (shown
exactly on the rational storage type), and at zero distance (converting
to the current scale exponent) returns the value unchanged for every
storage type. -/
theorem C4_convert (T : Type) [Mul T] [Div T] [OfNat T 10] (D : Dims)
    (p p2 : Int) (q : RationalTypeReduced T D p)
    (r : RationalTypeReduced ℚ D p) :
    qdims (convertPref q p2) = qdims q ∧
    qpref (convertPref q p2) = p2 ∧
    (convertPref q p).val = q.val ∧
    (convertPref r p2).val = r.val * (10 : ℚ) ^ (p - p2) :=
  ⟨rfl, rfl, convertPref_self q, convertPref_val_rat r p2⟩

/-- C5: for any two quantities (any dimension vectors and scale
exponents whose fractions pass the static_asserts), the product has
value a.val * b.val, scale exponent p1 + p2, and a dimension vector that
is componentwise the reduced fraction sum of the two exponent vectors. -/
theorem C5_mul (T : Type) [Mul T] (D1 D2 : Dims) (p1 p2 : Int)
    (a : RationalTypeReduced T D1 p1) (b : RationalTypeReduced T D2 p2)
    (h1 : dimsAssertOK D1) (h2 : dimsAssertOK D2) :
    (mul a b).val = a.val * b.val ∧
    qpref (mul a b) = p1 + p2 ∧
    qdims (mul a b) = dimsMul D1 D2 ∧
    (dimsMul D1 D2).Forall Frac.Canon ∧
    fracVal (dimsMul D1 D2).m = fracVal D1.m + fracVal D2.m ∧
    fracVal (dimsMul D1 D2).s = fracVal D1.s + fracVal D2.s ∧
    fracVal (dimsMul D1 D2).kg = fracVal D1.kg + fracVal D2.kg ∧
    fracVal (dimsMul D1 D2).A = fracVal D1.A + fracVal D2.A ∧
    fracVal (dimsMul D1 D2).K = fracVal D1.K + fracVal D2.K ∧
    fracVal (dimsMul D1 D2).mol = fracVal D1.mol + fracVal D2.mol ∧
    fracVal (dimsMul D1 D2).cd = fracVal D1.cd + fracVal D2.cd := by
  obtain ⟨a1, a2, a3, a4, a5, a6, a7⟩ := dimsAssertOK_forall_d D1 h1
  obtain ⟨b1, b2, b3, b4, b5, b6, b7⟩ := dimsAssertOK_forall_d D2 h2
  exact ⟨rfl, rfl, rfl,
    ⟨ratioAdd_canon _ _ a1 b1, ratioAdd_canon _ _ a2 b2,
     ratioAdd_canon _ _ a3 b3, ratioAdd_canon _ _ a4 b4,
     ratioAdd_canon _ _ a5 b5, ratioAdd_canon _ _ a6 b6,
     ratioAdd_canon _ _ a7 b7⟩,
    ratioAdd_val _ _ a1 b1, ratioAdd_val _ _ a2 b2, ratioAdd_val _ _ a3 b3,
    ratioAdd_val _ _ a4 b4, ratioAdd_val _ _ a5 b5, ratioAdd_val _ _ a6 b6,
    ratioAdd_val _ _ a7 b7⟩

/-- C5 witness: a length quantity of value 3 times a length quantity of
value 2 yields value 6 with the dimension vector of the MetersSq
(area) alias. -/
theorem C5_mul_witness :
    dimsAssertOK dimsLength ∧
    (mul (⟨3⟩ : RationalTypeReduced Int dimsLength 0)
      (⟨2⟩ : RationalTypeReduced Int dimsLength 0)).val = 6 ∧
    qdims (mul (⟨3⟩ : RationalTypeReduced Int dimsLength 0)
      (⟨2⟩ : RationalTypeReduced Int dimsLength 0)) = dimsArea :=
  ⟨by decide,
   (C5_mul Int dimsLength dimsLength 0 0 ⟨3⟩ ⟨2⟩ (by decide) (by decide)).1,
   (C5_mul Int dimsLength dimsLength 0 0 ⟨3⟩ ⟨2⟩ (by decide) (by decide)).2.2.1⟩

/-- C6: for any two quantities (any dimension vectors and scale
exponents whose fractions pass the static_asserts), the quotient has
value a.val / b.val with the division of the storage type applied with
no zero test, scale exponent p1 - p2, and a dimension vector that is
componentwise the reduced fraction difference of the two exponent
vectors. -/
theorem C6_div (T : Type) [Div T] (D1 D2 : Dims) (p1 p2 : Int)
    (a : RationalTypeReduced T D1 p1) (b : RationalTypeReduced T D2 p2)
    (h1 : dimsAssertOK D1) (h2 : dimsAssertOK D2) :
    (div a b).val = a.val / b.val ∧
    qpref (div a b) = p1 - p2 ∧
    qdims (div a b) = dimsDiv D1 D2 ∧
    (dimsDiv D1 D2).Forall Frac.Canon ∧
    fracVal (dimsDiv D1 D2).m = fracVal D1.m - fracVal D2.m ∧
    fracVal (dimsDiv D1 D2).s = fracVal D1.s - fracVal D2.s ∧
    fracVal (dimsDiv D1 D2).kg = fracVal D1.kg - fracVal D2.kg ∧
    fracVal (dimsDiv D1 D2).A = fracVal D1.A - fracVal D2.A ∧
    fracVal (dimsDiv D1 D2).K = fracVal D1.K - fracVal D2.K ∧
    fracVal (dimsDiv D1 D2).mol = fracVal D1.mol - fracVal D2.mol ∧
    fracVal (dimsDiv D1 D2).cd = fracVal D1.cd - fracVal D2.cd := by
  obtain ⟨a1, a2, a3, a4, a5, a6, a7⟩ := dimsAssertOK_forall_d D1 h1
  obtain ⟨b1, b2, b3, b4, b5, b6, b7⟩ := dimsAssertOK_forall_d D2 h2
  exact ⟨rfl, rfl, rfl,
    ⟨ratioSub_canon _ _ a1 b1, ratioSub_canon _ _ a2 b2,
     ratioSub_canon _ _ a3 b3, ratioSub_canon _ _ a4 b4,
     ratioSub_canon _ _ a5 b5, ratioSub_canon _ _ a6 b6,
     ratioSub_canon _ _ a7 b7⟩,
    ratioSub_val _ _ a1 b1, ratioSub_val _ _ a2 b2, ratioSub_val _ _ a3 b3,
    ratioSub_val _ _ a4 b4, ratioSub_val _ _ a5 b5, ratioSub_val _ _ a6 b6,
    ratioSub_val _ _ a7 b7⟩

/-- C6 witness: a length quantity of value 6 divided by a time quantity
of value 2 yields value 3. -/
theorem C6_div_witness :
    dimsAssertOK dimsLength ∧ dimsAssertOK dimsTime ∧
    (div (⟨6⟩ : RationalTypeReduced Int dimsLength 0)
      (⟨2⟩ : RationalTypeReduced Int dimsTime 0)).val = 3 :=
  ⟨by decide, by decide,
   (C6_div Int dimsLength dimsTime 0 0 ⟨6⟩ ⟨2⟩ (by decide) (by decide)).1⟩

/-- C7: addition and subtraction are typed only at one common tag
(identical dimension vector and identical scale exponent, as in the C++
operator templates, where a call with mismatched tags does not
type-check); the result keeps that tag and has value a.val + b.val,
respectively a.val - b.val; concretely, length 2 plus length 3 at one
scale exponent is length 5. -/
theorem C7_addsub (T : Type) [Add T] [Sub T] (D : Dims) (p : Int)
    (a b : RationalTypeReduced T D p) :
    (add a b).val = a.val + b.val ∧
    (sub a b).val = a.val - b.val ∧
    qdims (add a b) = D ∧ qpref (add a b) = p ∧
    qdims (sub a b) = D ∧ qpref (sub a b) = p ∧
    (add (⟨2⟩ : RationalTypeReduced Int dimsLength 0) ⟨3⟩).val = 5 :=
  ⟨rfl, rfl, rfl, rfl, rfl, rfl, by decide⟩

/-- C8: the comparisons are typed only at one common tag and compare the
raw values directly: == iff the values are equal, < iff the left value
is less, != the negation of ==, <= is < or ==, > the flipped <, >= is
> or ==; equality so defined is reflexive, symmetric and transitive, and
compatible quantities obey a strict total order consistent with their
raw values (transitive, irreflexive, asymmetric, trichotomous). -/
theorem C8_compare (T : Type) [LinearOrder T] [DecidableEq T]
    [DecidableRel ((· < ·) : T → T → Prop)] (D : Dims) (p : Int)
    (a b c : RationalTypeReduced T D p) :
    (eqQ a b = true ↔ a.val = b.val) ∧
    (ltQ a b = true ↔ a.val < b.val) ∧
    (neQ a b = true ↔ ¬ a.val = b.val) ∧
    (leQ a b = true ↔ a.val ≤ b.val) ∧
    (gtQ a b = true ↔ b.val < a.val) ∧
    (geQ a b = true ↔ b.val ≤ a.val) ∧
    eqQ a a = true ∧
    eqQ a b = eqQ b a ∧
    (eqQ a b = true → eqQ b c = true → eqQ a c = true) ∧
    (ltQ a b = true → ltQ b c = true → ltQ a c = true) ∧
    ltQ a a = false ∧
    (ltQ a b || eqQ a b || ltQ b a) = true ∧
    ¬ (ltQ a b = true ∧ ltQ b a = true) := by
  refine ⟨by simp [eqQ], by simp [ltQ], ?_, ?_, by simp [gtQ, ltQ],
    ?_, by simp [eqQ], ?_, ?_, ?_, by simp [ltQ], ?_, ?_⟩
  · simp only [neQ, eqQ, Bool.not_eq_eq_eq_not, Bool.not_true,
      decide_eq_false_iff_not]
    exact ⟨fun h e => h e.symm, fun h e => h e.symm⟩
  · simp only [leQ, ltQ, eqQ, Bool.or_eq_true, decide_eq_true_eq]
    exact le_iff_lt_or_eq.symm
  · simp only [geQ, gtQ, ltQ, eqQ, Bool.or_eq_true, decide_eq_true_eq]
    constructor
    · rintro (h | h)
      · exact le_of_lt h
      · exact le_of_eq h.symm
    · intro h
      rcases lt_or_eq_of_le h with h | h
      · exact Or.inl h
      · exact Or.inr h.symm
  · simp only [eqQ]
    exact decide_eq_decide.mpr eq_comm
  · simp only [eqQ, decide_eq_true_eq]
    exact fun h1 h2 => h1.trans h2
  · simp only [ltQ, decide_eq_true_eq]
    exact fun h1 h2 => lt_trans h1 h2
  · simp only [ltQ, eqQ, Bool.or_eq_true, decide_eq_true_eq]
    rcases lt_trichotomy a.val b.val with h | h | h
    · exact Or.inl (Or.inl h)
    · exact Or.inl (Or.inr h)
    · exact Or.inr h
  · simp only [ltQ, decide_eq_true_eq]
    exact fun h => lt_asymm h.1 h.2

/-- C9: the dimension-combination algebra of operator* is commutative
and associative: the dimension vector and the scale exponent of a * b
equal those of b * a, and those of (a * b) * c equal those of
a * (b * c), for quantities whose exponent fractions pass the
static_asserts. -/
theorem C9_dim_algebra (T : Type) [Mul T] (D1 D2 D3 : Dims)
    (p1 p2 p3 : Int) (a : RationalTypeReduced T D1 p1)
    (b : RationalTypeReduced T D2 p2) (c : RationalTypeReduced T D3 p3)
    (h1 : dimsAssertOK D1) (h2 : dimsAssertOK D2) (h3 : dimsAssertOK D3) :
    qdims (mul a b) = qdims (mul b a) ∧
    qpref (mul a b) = qpref (mul b a) ∧
    qdims (mul (mul a b) c) = qdims (mul a (mul b c)) ∧
    qpref (mul (mul a b) c) = qpref (mul a (mul b c)) :=
  ⟨dimsMul_comm D1 D2, Int.add_comm p1 p2,
   dimsMul_assoc D1 D2 D3 (dimsAssertOK_forall_d D1 h1)
     (dimsAssertOK_forall_d D2 h2) (dimsAssertOK_forall_d D3 h3),
   Int.add_assoc p1 p2 p3⟩

/-- C9 witness: the algebra applied at concrete length, time and area
quantities. -/
theorem C9_dim_algebra_witness :
    dimsAssertOK dimsLength ∧ dimsAssertOK dimsTime ∧ dimsAssertOK dimsArea ∧
    qdims (mul (mul (⟨1⟩ : RationalTypeReduced Int dimsLength 0)
        (⟨1⟩ : RationalTypeReduced Int dimsTime 0))
        (⟨1⟩ : RationalTypeReduced Int dimsArea 0))
      = qdims (mul (⟨1⟩ : RationalTypeReduced Int dimsLength 0)
        (mul (⟨1⟩ : RationalTypeReduced Int dimsTime 0)
        (⟨1⟩ : RationalTypeReduced Int dimsArea 0))) :=
  ⟨by decide, by decide, by decide,
   (C9_dim_algebra Int dimsLength dimsTime dimsArea 0 0 0 ⟨1⟩ ⟨1⟩ ⟨1⟩
     (by decide) (by decide) (by decide)).2.2.1⟩

/-- C10: the claim states that a *= s and a /= s, for s a bare number or
a same-scale dimensionless scalar quantity, work for every quantity type
and leave a equal to the old a * s (resp. a / s) as a value of its own
type. Counterexample: at scale exponent 2, multiplying by a same-scale
dimensionless scalar quantity produces scale exponent 2 + 2 = 4, a
different tag, so the result is not a value of the receiver type and
the assignment cannot compile. -/
theorem C10_counterexample :
    qpref (mul (⟨7⟩ : RationalTypeReduced Int dimsTime 2)
      (⟨3⟩ : RationalTypeReduced Int dimsZero 2))
      ≠ qpref (⟨7⟩ : RationalTypeReduced Int dimsTime 2) := by
  decide

/-- C10 (amended): at every tag, += and -= equal the binary operation
followed by assignment and keep the tag, as does *= by a bare number;
/= by a bare number and *= and /= by a dimensionless same-scale scalar
quantity only compile when the tag of the binary result equals the
receiver tag (which forces scale exponent 0 and a reduced dimension
vector), and under that requirement they too equal the binary operation
followed by assignment. -/
theorem C10_assign (T : Type) [Add T] [Sub T] [Mul T] [Div T]
    (D : Dims) (p : Int) (a b : RationalTypeReduced T D p) (s : T) :
    (addAssign a b).val = a.val + b.val ∧
    qdims (addAssign a b) = D ∧ qpref (addAssign a b) = p ∧
    (subAssign a b).val = a.val - b.val ∧
    qdims (subAssign a b) = D ∧ qpref (subAssign a b) = p ∧
    (mulAssignS a s).val = a.val * s ∧
    qdims (mulAssignS a s) = D ∧ qpref (mulAssignS a s) = p ∧
    (∀ (hD2 : dimsDiv D dimsZero = D) (hp2 : p - p = p),
      (divAssignS hD2 hp2 a s).val = a.val / s) ∧
    (∀ (hD1 : dimsMul D dimsZero = D) (hp1 : p + p = p)
      (sq : RationalTypeReduced T dimsZero p),
      (mulAssignQ hD1 hp1 a sq).val = a.val * sq.val) ∧
    (∀ (hD2 : dimsDiv D dimsZero = D) (hp2 : p - p = p)
      (sq : RationalTypeReduced T dimsZero p),
      (divAssignQ hD2 hp2 a sq).val = a.val / sq.val) :=
  ⟨rfl, rfl, rfl, rfl, rfl, rfl, rfl, rfl, rfl,
   fun _ _ => rfl, fun _ _ _ => rfl, fun _ _ _ => rfl⟩

/-- C10 witness: the unconditional part applied at a concrete length
quantity at scale exponent 3, and the conditional scalar-quantity part
applied at a concrete dimensionless quantity at scale exponent 0, where
its tag-equality requirements hold. -/
theorem C10_assign_witness :
    (addAssign (⟨4⟩ : RationalTypeReduced Int dimsLength 3) ⟨5⟩).val = 9 ∧
    (mulAssignQ (by decide) (by decide)
      (⟨4⟩ : RationalTypeReduced Int dimsZero 0)
      (⟨2⟩ : RationalTypeReduced Int dimsZero 0)).val = 8 :=
  ⟨(C10_assign Int dimsLength 3 ⟨4⟩ ⟨5⟩ 1).1,
   (C10_assign Int dimsZero 0 ⟨4⟩ ⟨5⟩ 2).2.2.2.2.2.2.2.2.2.2.1
     (by decide) (by decide) ⟨2⟩⟩

end Mesi
